import Mathlib

/-!
Verification development for the `bot.py` Discord bot
(ProgramadorSantino/Discord-Bot-Simple-Fun-and-Moderation).

The file shallowly embeds the parts of `src/bot.py` that the claims are
about:
* `parse_duration_to_seconds` (duration parsing, bot.py lines 100-116);
* the `scheduled_unmutes` task map together with `schedule_unmute`,
  `remindme` and the `unmute` command, as a small operational semantics
  of the single-threaded asyncio event loop;
* the `choose` and `poll` commands (option splitting, count checks,
  `NUM_EMOJIS` indexing);
* the cooldown decorators `commands.cooldown(2, 5, BucketType.user)`
  placed on the `pass`, `8ball`, `flip` and `roll` commands;
* the password generator `gen_pass` from the repository's `logic`
  module (the module itself is not under src/, so it is modelled from
  the specification, as documented at its definition).

Randomness (`random.choice`, character draws) is modelled by passing the
random index / oracle explicitly, so every definition is executable.
-/

namespace Bot

/-! ## Python string helpers

`str.strip()` removes leading and trailing Python whitespace;
`str.replace(" ", "")` removes every space character; `str.lower()`
lowercases (ASCII-faithful here).  These mirror the preprocessing in
`parse_duration_to_seconds` and the `.strip()` calls in `choose`/`poll`. -/

def PY_WHITESPACE : List Char := [' ', '\t', '\n', '\r', '\x0b', '\x0c']

def pyIsSpace (c : Char) : Bool := PY_WHITESPACE.contains c

def pyStripList (l : List Char) : List Char :=
  ((l.dropWhile pyIsSpace).reverse.dropWhile pyIsSpace).reverse

def pyStrip (s : String) : String := String.mk (pyStripList s.data)

/-! ## Duration parsing (`parse_duration_to_seconds`, bot.py 100-116)

```python
text = text.strip().lower().replace(" ", "")
if not text: raise ValueError("empty duration")
pattern = r"(\d+)([smhdw])"
units = {"s":1, "m":60, "h":3600, "d":86400, "w":604800}
total = 0
for amount, unit in re.findall(pattern, text):
    total += int(amount) * units[unit]
if total == 0: raise ValueError("invalid duration")
return total
```

`re.findall(r"(\d+)([smhdw])", text)` scans left to right for a maximal
digit run immediately followed by a unit letter (digits and unit letters
are disjoint, so regex backtracking can never shorten the run into a
successful match); `findPairs` below performs exactly that scan. -/

def durPreprocess (s : String) : List Char :=
  ((pyStripList s.data).map Char.toLower).filter (fun c => c ≠ ' ')

def UNIT_CHARS : List Char := ['s', 'm', 'h', 'd', 'w']

def unitSeconds (c : Char) : Nat :=
  if c = 's' then 1
  else if c = 'm' then 60
  else if c = 'h' then 3600
  else if c = 'd' then 86400
  else if c = 'w' then 604800
  else 0

/-- `int(amount)` on the matched digit string. -/
def digitsToNat (ds : List Char) : Nat :=
  ds.foldl (fun a c => 10 * a + (c.toNat - '0'.toNat)) 0

/-- The matches of `re.findall(r"(\d+)([smhdw])", ·)`: `run` is the digit
run accumulated so far (initially `[]`). -/
def findPairs (run : List Char) : List Char → List (Nat × Char)
  | [] => []
  | c :: rest =>
    if c.isDigit then findPairs (run ++ [c]) rest
    else if UNIT_CHARS.contains c && !run.isEmpty then
      (digitsToNat run, c) :: findPairs [] rest
    else findPairs [] rest

def durPairs (s : String) : List (Nat × Char) :=
  findPairs [] (durPreprocess s)

/-- The total the spec describes: sum of amount × unit-seconds over the
matched pairs. -/
def durTotal (s : String) : Nat :=
  ((durPairs s).map (fun p => p.1 * unitSeconds p.2)).sum

def parse_duration_to_seconds (s : String) : Except String Nat :=
  let t := durPreprocess s
  if t.isEmpty then .error "empty duration"
  else
    let total := (findPairs [] t).foldl (fun acc p => acc + p.1 * unitSeconds p.2) 0
    if total = 0 then .error "invalid duration" else .ok total

def isErr {α : Type} (r : Except String α) : Bool :=
  match r with
  | .error _ => true
  | .ok _ => false

deriving instance DecidableEq for Except

/-! ## The `choose` command (bot.py 428-434)

```python
parts = [p.strip() for p in options.split("|") if p.strip()]
if len(parts) < 2:
    return await ctx.send("Give me at least two options, ...")
pick = random.choice(parts)
```

`random.choice(parts)` picks a uniformly random index below
`len(parts)`; the random draw is modelled by an explicit `n : Nat`
reduced mod the length. -/

/-- Python's `str.split("|")`: splitting on every pipe character, keeping
empty fragments (`"".split("|") == [""]`, `"a|".split("|") == ["a", ""]`). -/
def splitOnPipe : List Char → List (List Char)
  | [] => [[]]
  | c :: rest =>
    if c = '|' then [] :: splitOnPipe rest
    else
      match splitOnPipe rest with
      | [] => [[c]]
      | g :: gs => (c :: g) :: gs

def splitStripParts (options : String) : List String :=
  ((splitOnPipe options.data).map (fun l => String.mk (pyStripList l))).filter
    (fun p => p ≠ "")

def choose (options : String) (n : Nat) : Except String String :=
  let parts := splitStripParts options
  if parts.length < 2 then
    .error "Give me at least two options, like: `$choose tacos | sushi | pizza`"
  else
    .ok (parts.getD (n % parts.length) "")

/-! ## The `poll` command (bot.py 27, 436-453)

```python
NUM_EMOJIS = ["1..","2..",...,"10.."]           # 10 keycap emojis
opts = [o.strip() for o in options.split("|") if o.strip()]
if not (2 <= len(opts) <= 10):
    return await ctx.send("Give me between 2 and 10 options, ...")
desc = "\n".join(f"{NUM_EMOJIS[i]}  {opt}" for i, opt in enumerate(opts))
for i in range(len(opts)):
    await msg.add_reaction(NUM_EMOJIS[i])
```

The quoted-question extraction regex is upstream of the part the claim
is about; `options` here is the option text captured by that regex.
The keycap emojis are the digit followed by U+FE0F U+20E3, and U+1F51F
for ten. -/

def keycap (d : Char) : String := String.mk [d, Char.ofNat 0xFE0F, Char.ofNat 0x20E3]

def NUM_EMOJIS : List String :=
  [keycap '1', keycap '2', keycap '3', keycap '4', keycap '5',
   keycap '6', keycap '7', keycap '8', keycap '9', String.mk [Char.ofNat 0x1F51F]]

def pollOpts (options : String) : List String := splitStripParts options

/-- The emoji indices the handler uses: `NUM_EMOJIS[i]` for each
`i in range(len(opts))` (both in the description and the reactions). -/
def pollIndices (options : String) : List Nat :=
  List.range (pollOpts options).length

/-- The option-count gate and the rendering of the poll: `.error` is the
usage reply sent before anything else, `.ok` carries the
(emoji, option) lines; emoji lookup is modelled with `List.get?`. -/
def poll (options : String) : Except String (List (Option String × String)) :=
  let opts := pollOpts options
  if 2 ≤ opts.length ∧ opts.length ≤ 10 then
    .ok (opts.enum.map (fun p => (NUM_EMOJIS.get? p.1, p.2)))
  else
    .error "Give me between 2 and 10 options, separated by `|`."

/-! ## Cooldown gate (bot.py 297-313, 725-731)

The `pass`, `8ball`, `flip` and `roll` commands are decorated with
`@commands.cooldown(2, 5, commands.BucketType.user)`, and
`on_command_error` reports `CommandOnCooldown.retry_after` to the user.
-/

structure CooldownConfig where
  rate : Nat
  per : Nat
deriving DecidableEq, Repr

structure CooldownWindow where
  windowStart : Nat
  uses : Nat
deriving DecidableEq, Repr

inductive CooldownResult
  | allowed
  | retryAfter (seconds : Nat)
deriving DecidableEq, Repr

/-- Modelled from the spec: the rate-limit algorithm itself lives in the
external commands framework, not under src/; src/bot.py only supplies
the per-command configuration (`commands.cooldown(2, 5, ...)`, bot.py
297-313) and the error reply (bot.py 730-731).  Fixed-window semantics
per the spec's `CooldownRecord`: a window starts at the first use after
the previous window elapsed; up to `rate` uses are allowed inside
`per` seconds of the window start; a further use is rejected with the
remaining wait until the window resets. -/
def cooldown_check (cfg : CooldownConfig) (st : Option CooldownWindow) (t : Nat) :
    CooldownResult × Option CooldownWindow :=
  match st with
  | none => (.allowed, some ⟨t, 1⟩)
  | some w =>
    if w.windowStart + cfg.per ≤ t then (.allowed, some ⟨t, 1⟩)
    else if w.uses < cfg.rate then (.allowed, some ⟨w.windowStart, w.uses + 1⟩)
    else (.retryAfter (w.windowStart + cfg.per - t), some w)

/-- The configuration placed on `pass`, `8ball`, `flip` and `roll`:
`@commands.cooldown(2, 5, commands.BucketType.user)`. -/
def pass_cooldown : CooldownConfig := ⟨2, 5⟩

/-! ## Password generation (`gen_pass`, imported from `logic`) -/

/-- Modelled from the spec: `gen_pass` is imported from the repository's
`logic` module (bot.py line 16), which is not under src/ — only its
callers are (`password` at bot.py 297-300 passes the user-supplied
length straight through; `on_message` at bot.py 221-222 calls
`gen_pass(10)`).  Per the spec, the generator clamps the requested
length into the safe range [4, 64] before generating and draws every
character independently and uniformly from a fixed alphabet of
mixed-case letters, digits and symbols; the random source is modelled
by an index oracle `pick`. -/
def PASSWORD_ALPHABET : List Char :=
  "abcdefghijklmnopqrstuvwxyzABCDEFGHIJKLMNOPQRSTUVWXYZ0123456789!@#$%^&*()-_=+".data

def clampPassLength (n : Int) : Nat := (min (max n 4) 64).toNat

def gen_pass (length : Int) (pick : Nat → Nat) : String :=
  String.mk ((List.range (clampPassLength length)).map
    (fun i => PASSWORD_ALPHABET.getD (pick i % PASSWORD_ALPHABET.length) 'a'))

/-- The `pass` command handler (bot.py 299-300): `gen_pass(length)` with
the user-supplied length passed through unclamped. -/
def password_command (length : Int) (pick : Nat → Nat) : String := gen_pass length pick

/-! ## The scheduled-unmute task map and reminders
(bot.py 33-34, 137-167, 455-468, 706-722)

```python
scheduled_unmutes = {}  # key: (guild_id, user_id) -> asyncio.Task

async def schedule_unmute(guild_id, user_id, seconds, reason=...):
    key = (guild_id, user_id)
    old = scheduled_unmutes.get(key)
    if old and not old.done():
        old.cancel()
    async def _task():
        try:
            await asyncio.sleep(seconds)
            ... remove Muted role, announce ...   # the side effect
        except asyncio.CancelledError:
            pass
        finally:
            scheduled_unmutes.pop(key, None)
    t = asyncio.create_task(_task())
    scheduled_unmutes[key] = t
```

`remindme` (bot.py 455-468) spawns `asyncio.create_task(_remind())`
with no key tracking and no cancellation of any earlier reminder.
The `unmute` command (bot.py 706-722) does
`task = scheduled_unmutes.pop(key, None); if task and not task.done():
task.cancel()`.

The asyncio event loop is cooperative: each handler body runs
atomically between awaits.  We model it as a small-step system whose
events are the synchronous blocks:
* `scheduleUnmute k` — the body of `schedule_unmute` (cancel-request
  the old not-done task, create and register the new one);
* `remindme k` — the body of `remindme` (spawn an untracked task);
* `wake tid raises` — task `tid` resumes from `asyncio.sleep`: if a
  cancel was requested the sleep raises `CancelledError` (caught, then
  the `finally` pops the key); otherwise the sleep elapsed and the
  deferred action runs — `raises` says whether the action itself
  raised — and the `finally` pops the key either way;
* `unmuteCmd k` — the scheduler part of the `unmute` command.

`Task.fired` records that the deferred side effect actually executed.
A reminder task has no `finally`-pop (it is in no map). -/

inductive TaskStatus
  | sleeping
  | cancelRequested
  | cancelled
  | finished
deriving DecidableEq, Repr

inductive TaskKind
  | unmute
  | reminder
deriving DecidableEq, Repr

structure SchedTask where
  key : Nat × Nat
  status : TaskStatus
  fired : Bool
  kind : TaskKind
deriving DecidableEq, Repr

structure SchedState where
  tasks : List SchedTask
  sched : List ((Nat × Nat) × Nat)
deriving DecidableEq, Repr

/-- `scheduled_unmutes.get(key)` on the association list. -/
def lookupSched (l : List ((Nat × Nat) × Nat)) (k : Nat × Nat) : Option Nat :=
  (l.find? (fun p => p.1 = k)).map (fun p => p.2)

/-- `scheduled_unmutes.pop(key, None)`'s effect on the dict. -/
def eraseSched (l : List ((Nat × Nat) × Nat)) (k : Nat × Nat) :
    List ((Nat × Nat) × Nat) :=
  l.filter (fun p => p.1 ≠ k)

/-- `scheduled_unmutes[key] = tid`. -/
def setSched (l : List ((Nat × Nat) × Nat)) (k : Nat × Nat) (tid : Nat) :
    List ((Nat × Nat) × Nat) :=
  (k, tid) :: eraseSched l k

/-- `task.done()`: an asyncio task is done once finished or cancelled;
a task whose cancellation is requested but not yet delivered is not
done. -/
def taskDone (t : SchedTask) : Bool :=
  t.status = .cancelled || t.status = .finished

inductive SchedEvent
  | scheduleUnmute (k : Nat × Nat)
  | remindme (k : Nat × Nat)
  | wake (tid : Nat) (raises : Bool)
  | unmuteCmd (k : Nat × Nat)
deriving DecidableEq, Repr

/-- `if old and not old.done(): old.cancel()` applied to the task at
index `tid`. -/
def cancelIfPending (tasks : List SchedTask) (tid : Nat) : List SchedTask :=
  match tasks[tid]? with
  | some t => if taskDone t then tasks else tasks.set tid { t with status := .cancelRequested }
  | none => tasks

def schedStep (s : SchedState) (e : SchedEvent) : SchedState :=
  match e with
  | .scheduleUnmute k =>
    let tasks1 :=
      match lookupSched s.sched k with
      | some tid => cancelIfPending s.tasks tid
      | none => s.tasks
    { tasks := tasks1 ++ [⟨k, .sleeping, false, .unmute⟩],
      sched := setSched s.sched k tasks1.length }
  | .remindme k =>
    { s with tasks := s.tasks ++ [⟨k, .sleeping, false, .reminder⟩] }
  | .wake tid raises =>
    match s.tasks[tid]? with
    | none => s
    | some t =>
      match t.status with
      | .sleeping =>
        let s1 : SchedState :=
          { s with tasks := s.tasks.set tid { t with status := .finished, fired := !raises } }
        match t.kind with
        | .unmute => { s1 with sched := eraseSched s1.sched t.key }
        | .reminder => s1
      | .cancelRequested =>
        let s1 : SchedState :=
          { s with tasks := s.tasks.set tid { t with status := .cancelled } }
        match t.kind with
        | .unmute => { s1 with sched := eraseSched s1.sched t.key }
        | .reminder => s1
      | _ => s
  | .unmuteCmd k =>
    let popped := lookupSched s.sched k
    let s1 : SchedState := { s with sched := eraseSched s.sched k }
    match popped with
    | some tid => { s1 with tasks := cancelIfPending s1.tasks tid }
    | none => s1

def initSched : SchedState := { tasks := [], sched := [] }

def schedExec (es : List SchedEvent) : SchedState :=
  es.foldl schedStep initSched

def statusOf (s : SchedState) (tid : Nat) : Option TaskStatus :=
  (s.tasks[tid]?).map SchedTask.status

def firedOf (s : SchedState) (tid : Nat) : Option Bool :=
  (s.tasks[tid]?).map SchedTask.fired

/-- A task whose cancellation has been requested or delivered: its
deferred action can no longer run. -/
def cancelTainted (st : TaskStatus) : Bool :=
  st = .cancelRequested || st = .cancelled

/-! Basic lemmas relating `parse_duration_to_seconds` to `durTotal`. -/

theorem foldl_add_eq_sum {α : Type} (f : α → Nat) :
    ∀ (l : List α) (a : Nat),
      l.foldl (fun acc x => acc + f x) a = a + (l.map f).sum := by
  intro l
  induction l with
  | nil => intro a; simp
  | cons x xs ih =>
    intro a
    simp [List.foldl, ih, Nat.add_assoc]

theorem parse_eq (s : String) :
    parse_duration_to_seconds s =
      (if (durPreprocess s).isEmpty then .error "empty duration"
       else if durTotal s = 0 then .error "invalid duration"
       else .ok (durTotal s)) := by
  unfold parse_duration_to_seconds durTotal durPairs
  rcases h : (durPreprocess s).isEmpty with _ | _ <;>
    simp [h, foldl_add_eq_sum]

theorem durPreprocess_empty_pairs {s : String}
    (h : (durPreprocess s).isEmpty = true) : durPairs s = [] := by
  unfold durPairs
  rcases h' : durPreprocess s with _ | ⟨c, rest⟩
  · simp [findPairs]
  · rw [h'] at h; simp at h

theorem isErr_parse_iff (s : String) :
    isErr (parse_duration_to_seconds s) = true ↔ durTotal s = 0 := by
  rw [parse_eq]
  rcases h : (durPreprocess s).isEmpty with _ | _
  · simp only [h, Bool.false_eq_true, if_false]
    by_cases ht : durTotal s = 0 <;> simp [ht, isErr]
  · have hp : durPairs s = [] := durPreprocess_empty_pairs h
    have ht : durTotal s = 0 := by simp [durTotal, hp]
    simp [h, ht, isErr]

/-! ## List and option helpers -/

theorem getD_mod_mem {α : Type} (l : List α) (n : Nat) (d : α) (h : 0 < l.length) :
    l.getD (n % l.length) d ∈ l := by
  have hmod : n % l.length < l.length := Nat.mod_lt _ h
  rw [List.getD_eq_getElem?_getD, List.getElem?_eq_getElem hmod]
  exact List.getElem_mem hmod

theorem getElem?_append_of_some {α : Type} {l l2 : List α} {i : Nat} {t : α}
    (h : l[i]? = some t) : (l ++ l2)[i]? = some t := by
  rw [List.getElem?_append]
  rw [if_pos (List.getElem?_eq_some.mp h).1]
  exact h

theorem getElem?_set_self_of_some {α : Type} {l : List α} {i : Nat} {t : α} (a : α)
    (h : l[i]? = some t) : (l.set i a)[i]? = some a := by
  rw [List.getElem?_set, if_pos rfl, if_pos (List.getElem?_eq_some.mp h).1]

theorem set_preserves {α : Type} {l : List α} {i j : Nat} {t : α} (a : α)
    (h : l[j]? = some t) (hne : i ≠ j) : (l.set i a)[j]? = some t := by
  rw [List.getElem?_set_ne hne]; exact h

theorem getElem?_append_cases {α : Type} {l l2 : List α} {i : Nat} {t : α}
    (h : (l ++ l2)[i]? = some t) : l[i]? = some t ∨ t ∈ l2 := by
  rw [List.getElem?_append] at h
  split at h
  · exact Or.inl h
  · exact Or.inr (List.getElem?_mem h)

theorem getElem?_set_cases {α : Type} {l : List α} {i j : Nat} {a t : α}
    (h : (l.set i a)[j]? = some t) : t = a ∨ l[j]? = some t := by
  rw [List.getElem?_set] at h
  split at h
  · split at h
    · exact Or.inl (Option.some.inj h).symm
    · cases h
  · exact Or.inr h

/-! ## Scheduler lemmas -/

/-- How `cancelIfPending` can change the task at an arbitrary index. -/
theorem cancelIfPending_getElem? (tasks : List SchedTask) (tid' tid : Nat) (t : SchedTask)
    (h : tasks[tid]? = some t) :
    ∃ t', (cancelIfPending tasks tid')[tid]? = some t' ∧
      t'.fired = t.fired ∧
      (t' = t ∨ (t'.status = .cancelRequested ∧ taskDone t = false)) := by
  unfold cancelIfPending
  rcases hres : tasks[tid']? with _ | u <;> simp only [hres]
  · exact ⟨t, h, rfl, Or.inl rfl⟩
  · by_cases hd : taskDone u = true
    · rw [if_pos hd]
      exact ⟨t, h, rfl, Or.inl rfl⟩
    · rw [if_neg hd]
      by_cases heq : tid' = tid
      · subst heq
        rw [h] at hres
        cases hres
        exact ⟨{ t with status := .cancelRequested },
          getElem?_set_self_of_some _ h, rfl,
          Or.inr ⟨rfl, by simpa using hd⟩⟩
      · exact ⟨t, set_preserves _ h heq, rfl, Or.inl rfl⟩

/-- Once a task's cancellation is requested or delivered, no step ever
fires it: its status stays tainted and `fired` stays false. -/
theorem tainted_step (s : SchedState) (e : SchedEvent) (tid : Nat) (t : SchedTask)
    (h : s.tasks[tid]? = some t) (ht : cancelTainted t.status = true) (hf : t.fired = false) :
    ∃ t', (schedStep s e).tasks[tid]? = some t' ∧
      cancelTainted t'.status = true ∧ t'.fired = false := by
  have htaint : ∀ t' : SchedTask,
      t'.fired = t.fired → t' = t ∨ (t'.status = .cancelRequested ∧ taskDone t = false) →
      cancelTainted t'.status = true ∧ t'.fired = false := by
    rintro t' hfeq (rfl | ⟨hs, _⟩)
    · exact ⟨ht, hf⟩
    · exact ⟨by rw [hs]; rfl, by rw [hfeq]; exact hf⟩
  cases e with
  | scheduleUnmute k =>
    simp only [schedStep]
    rcases hl : lookupSched s.sched k with _ | tid' <;> simp only [hl]
    · exact ⟨t, getElem?_append_of_some h, ht, hf⟩
    · obtain ⟨t', h', hfeq, hcase⟩ := cancelIfPending_getElem? s.tasks tid' tid t h
      obtain ⟨h1, h2⟩ := htaint t' hfeq hcase
      exact ⟨t', getElem?_append_of_some h', h1, h2⟩
  | remindme k =>
    simp only [schedStep]
    exact ⟨t, getElem?_append_of_some h, ht, hf⟩
  | wake tid' raises =>
    rcases hres : s.tasks[tid']? with _ | ⟨ukey, ustatus, ufired, ukind⟩
    · simp only [schedStep, hres]
      exact ⟨t, h, ht, hf⟩
    · cases ustatus <;> cases ukind <;> simp only [schedStep, hres]
      · by_cases heq : tid' = tid
        · subst heq; rw [h] at hres; cases hres
          simp [cancelTainted] at ht
        · exact ⟨t, set_preserves _ h heq, ht, hf⟩
      · by_cases heq : tid' = tid
        · subst heq; rw [h] at hres; cases hres
          simp [cancelTainted] at ht
        · exact ⟨t, set_preserves _ h heq, ht, hf⟩
      · by_cases heq : tid' = tid
        · subst heq; rw [h] at hres; cases hres
          exact ⟨_, getElem?_set_self_of_some _ h, rfl, hf⟩
        · exact ⟨t, set_preserves _ h heq, ht, hf⟩
      · by_cases heq : tid' = tid
        · subst heq; rw [h] at hres; cases hres
          exact ⟨_, getElem?_set_self_of_some _ h, rfl, hf⟩
        · exact ⟨t, set_preserves _ h heq, ht, hf⟩
      · exact ⟨t, h, ht, hf⟩
      · exact ⟨t, h, ht, hf⟩
      · exact ⟨t, h, ht, hf⟩
      · exact ⟨t, h, ht, hf⟩
  | unmuteCmd k =>
    simp only [schedStep]
    rcases hl : lookupSched s.sched k with _ | tid' <;> simp only [hl]
    · exact ⟨t, h, ht, hf⟩
    · obtain ⟨t', h', hfeq, hcase⟩ := cancelIfPending_getElem? s.tasks tid' tid t h
      obtain ⟨h1, h2⟩ := htaint t' hfeq hcase
      exact ⟨t', h', h1, h2⟩

/-- `tainted_step` extended over any sequence of further events. -/
theorem tainted_foldl (es : List SchedEvent) :
    ∀ (s : SchedState) (tid : Nat),
      (∃ t, s.tasks[tid]? = some t ∧ cancelTainted t.status = true ∧ t.fired = false) →
      ∃ t, (es.foldl schedStep s).tasks[tid]? = some t ∧
        cancelTainted t.status = true ∧ t.fired = false := by
  induction es with
  | nil => intro s tid h; exact h
  | cons e rest ih =>
    intro s tid h
    obtain ⟨t, h1, h2, h3⟩ := h
    exact ih (schedStep s e) tid (tainted_step s e tid t h1 h2 h3)

theorem cancelIfPending_getElem?_rev (tasks : List SchedTask) (tid' tid : Nat) (t : SchedTask)
    (h : (cancelIfPending tasks tid')[tid]? = some t) :
    tasks[tid]? = some t ∨
      ∃ u, tasks[tid']? = some u ∧ taskDone u = false ∧
        t = { u with status := .cancelRequested } := by
  unfold cancelIfPending at h
  rcases hres : tasks[tid']? with _ | u <;> simp only [hres] at h
  · exact Or.inl h
  · by_cases hd : taskDone u = true
    · rw [if_pos hd] at h; exact Or.inl h
    · rw [if_neg hd] at h
      rcases getElem?_set_cases h with rfl | h'
      · exact Or.inr ⟨u, rfl, by simpa using hd, rfl⟩
      · exact Or.inl h'

/-- Reachability invariant: a task whose side effect has executed is
finished. -/
def firedImpliesFinished (s : SchedState) : Prop :=
  ∀ (tid : Nat) (t : SchedTask),
    s.tasks[tid]? = some t → t.fired = true → t.status = .finished

theorem firedImpliesFinished_step (s : SchedState) (e : SchedEvent)
    (hg : firedImpliesFinished s) : firedImpliesFinished (schedStep s e) := by
  unfold firedImpliesFinished
  intro tid t h hft
  have hnew : ∀ (k : Nat × Nat) (kind : TaskKind),
      t ∈ [(⟨k, .sleeping, false, kind⟩ : SchedTask)] → t.fired = true → False := by
    intro k kind hmem hf
    rw [List.mem_singleton] at hmem
    rw [hmem] at hf
    cases hf
  have hcip : ∀ tid', (cancelIfPending s.tasks tid')[tid]? = some t → t.status = .finished := by
    intro tid' h'
    rcases cancelIfPending_getElem?_rev s.tasks tid' tid t h' with h2 | ⟨u, hu, hd, rfl⟩
    · exact hg tid t h2 hft
    · have := hg tid' u hu hft
      simp [taskDone, this] at hd
  cases e with
  | scheduleUnmute k =>
    simp only [schedStep] at h
    rcases hl : lookupSched s.sched k with _ | tid' <;> simp only [hl] at h
    · rcases getElem?_append_cases h with h' | hmem
      · exact hg tid t h' hft
      · exact absurd hft (by intro hf; exact hnew k .unmute hmem hf)
    · rcases getElem?_append_cases h with h' | hmem
      · exact hcip tid' h'
      · exact absurd hft (by intro hf; exact hnew k .unmute hmem hf)
  | remindme k =>
    simp only [schedStep] at h
    rcases getElem?_append_cases h with h' | hmem
    · exact hg tid t h' hft
    · exact absurd hft (by intro hf; exact hnew k .reminder hmem hf)
  | wake tid' raises =>
    rcases hres : s.tasks[tid']? with _ | ⟨ukey, ustatus, ufired, ukind⟩
    · simp only [schedStep, hres] at h
      exact hg tid t h hft
    · cases ustatus <;> cases ukind <;> simp only [schedStep, hres] at h
      · rcases getElem?_set_cases h with rfl | h'
        · rfl
        · exact hg tid t h' hft
      · rcases getElem?_set_cases h with rfl | h'
        · rfl
        · exact hg tid t h' hft
      · rcases getElem?_set_cases h with rfl | h'
        · exact absurd (hg tid' _ hres hft) (by simp)
        · exact hg tid t h' hft
      · rcases getElem?_set_cases h with rfl | h'
        · exact absurd (hg tid' _ hres hft) (by simp)
        · exact hg tid t h' hft
      · exact hg tid t h hft
      · exact hg tid t h hft
      · exact hg tid t h hft
      · exact hg tid t h hft
  | unmuteCmd k =>
    simp only [schedStep] at h
    rcases hl : lookupSched s.sched k with _ | tid' <;> simp only [hl] at h
    · exact hg tid t h hft
    · exact hcip tid' h

theorem firedImpliesFinished_exec (es : List SchedEvent) :
    firedImpliesFinished (schedExec es) := by
  have hinit : firedImpliesFinished initSched := by
    unfold firedImpliesFinished
    intro tid t h
    simp [initSched] at h
  unfold schedExec
  induction es using List.reverseRecOn with
  | nil => exact hinit
  | append_singleton rest e ih =>
    rw [List.foldl_append]
    exact firedImpliesFinished_step _ e ih

theorem lookupSched_erase (l : List ((Nat × Nat) × Nat)) (k : Nat × Nat) :
    lookupSched (eraseSched l k) k = none := by
  unfold lookupSched
  rw [Option.map_eq_none']
  rw [List.find?_eq_none]
  intro x hx
  have := List.of_mem_filter hx
  simpa using this

theorem eraseSched_of_lookup_none (l : List ((Nat × Nat) × Nat)) (k : Nat × Nat)
    (h : lookupSched l k = none) : eraseSched l k = l := by
  unfold lookupSched at h
  have hf := Option.map_eq_none'.mp h
  unfold eraseSched
  apply List.filter_eq_self.mpr
  intro a ha
  have := List.find?_eq_none.mp hf a ha
  simpa using this

/-- `schedule_unmute` on a key whose registered task is still sleeping:
the old task is cancel-requested during the synchronous part of the
call, before the new task is armed. -/
theorem scheduleUnmute_taints (s : SchedState) (k : Nat × Nat) (tid : Nat) (t : SchedTask)
    (hl : lookupSched s.sched k = some tid) (h : s.tasks[tid]? = some t)
    (hst : t.status = .sleeping) :
    ∃ t', (schedStep s (.scheduleUnmute k)).tasks[tid]? = some t' ∧
      t'.status = .cancelRequested ∧ t'.fired = t.fired := by
  have hd : taskDone t = false := by simp [taskDone, hst]
  simp only [schedStep, hl]
  unfold cancelIfPending
  simp only [h]
  rw [if_neg (by simp [hd])]
  exact ⟨{ t with status := .cancelRequested },
    getElem?_append_of_some (getElem?_set_self_of_some _ h), rfl, rfl⟩

/-- The scheduler part of the `unmute` command is a no-op when the key
is absent (`pop(key, None)` returns `None`, nothing is cancelled). -/
theorem unmuteCmd_noop (s : SchedState) (k : Nat × Nat)
    (hl : lookupSched s.sched k = none) :
    schedStep s (.unmuteCmd k) = s := by
  simp only [schedStep, hl]
  rw [eraseSched_of_lookup_none s.sched k hl]

/-- The scheduler part of the `unmute` command on a registered sleeping
task: the entry is popped and the task cancel-requested. -/
theorem unmuteCmd_cancels (s : SchedState) (k : Nat × Nat) (tid : Nat) (t : SchedTask)
    (hl : lookupSched s.sched k = some tid) (h : s.tasks[tid]? = some t)
    (hst : t.status = .sleeping) :
    lookupSched (schedStep s (.unmuteCmd k)).sched k = none ∧
    ∃ t', (schedStep s (.unmuteCmd k)).tasks[tid]? = some t' ∧
      t'.status = .cancelRequested ∧ t'.fired = t.fired := by
  have hd : taskDone t = false := by simp [taskDone, hst]
  simp only [schedStep, hl]
  constructor
  · exact lookupSched_erase s.sched k
  · unfold cancelIfPending
    simp only [h]
    rw [if_neg (by simp [hd])]
    exact ⟨{ t with status := .cancelRequested },
      getElem?_set_self_of_some _ h, rfl, rfl⟩

theorem statusOf_some_elim (s : SchedState) (tid : Nat) (st : TaskStatus)
    (h : statusOf s tid = some st) :
    ∃ t, s.tasks[tid]? = some t ∧ t.status = st := by
  unfold statusOf at h
  rcases hh : s.tasks[tid]? with _ | t <;> rw [hh] at h
  · cases h
  · exact ⟨t, rfl, Option.some.inj h⟩

theorem sleeping_not_fired (es : List SchedEvent) (tid : Nat) (t : SchedTask)
    (h : (schedExec es).tasks[tid]? = some t) (hst : t.status = .sleeping) :
    t.fired = false := by
  rcases hfr : t.fired with _ | _
  · rfl
  · have := firedImpliesFinished_exec es tid t h hfr
    rw [this] at hst
    cases hst

theorem schedExec_append_cons (es1 : List SchedEvent) (e : SchedEvent)
    (es2 : List SchedEvent) :
    schedExec (es1 ++ e :: es2) =
      es2.foldl schedStep (schedStep (schedExec es1) e) := by
  unfold schedExec
  rw [List.foldl_append]
  rfl

/-! ## Claim theorems -/

/-- C1 (counterexample): the claim quantifies over both timed unmutes
and reminders, but `remindme` spawns a bare `asyncio.create_task` with
no key tracking and no cancellation.  Concretely: a first reminder for
subject (1, 2) is still pending (sleeping) when a second reminder for
the same subject is scheduled, yet both side effects execute. -/
theorem C1_counterexample_reminders_both_fire :
    statusOf (schedExec [.remindme (1, 2)]) 0 = some .sleeping ∧
    firedOf (schedExec [.remindme (1, 2), .remindme (1, 2),
      .wake 0 false, .wake 1 false]) 0 = some true ∧
    firedOf (schedExec [.remindme (1, 2), .remindme (1, 2),
      .wake 0 false, .wake 1 false]) 1 = some true := by
  decide

/-- C1 (amended): for timed unmutes the claim holds.  If, in any
reachable state, the `scheduled_unmutes` map registers a still-sleeping
task for key `k`, then after a second `schedule_unmute k` — whatever
events follow — that old task's side effect never executes: the old
task is cancel-requested before the new one is armed, and a
cancel-requested task can never fire. -/
theorem C1_unmute_replacement_cancels_old :
    ∀ (es1 es2 : List SchedEvent) (k : Nat × Nat) (tid : Nat),
      lookupSched (schedExec es1).sched k = some tid →
      statusOf (schedExec es1) tid = some .sleeping →
      firedOf (schedExec (es1 ++ .scheduleUnmute k :: es2)) tid = some false := by
  intro es1 es2 k tid hl hst
  obtain ⟨t, ht, hts⟩ := statusOf_some_elim _ _ _ hst
  have hfired : t.fired = false := sleeping_not_fired es1 tid t ht hts
  obtain ⟨t', ht', hts', htf'⟩ := scheduleUnmute_taints (schedExec es1) k tid t hl ht hts
  obtain ⟨u, hu, _, huf⟩ :=
    tainted_foldl es2 (schedStep (schedExec es1) (.scheduleUnmute k)) tid
      ⟨t', ht', by rw [hts']; rfl, by rw [htf']; exact hfired⟩
  rw [schedExec_append_cons]
  unfold firedOf
  rw [hu, Option.map_some', huf]

/-- C1 witness: a concrete run of `C1_unmute_replacement_cancels_old`
— schedule an unmute for (1, 2), replace it, let the old task run its
cancellation path: the old task never fired. -/
theorem C1_unmute_replacement_cancels_old_witness :
    firedOf (schedExec
      ([.scheduleUnmute (1, 2)] ++ .scheduleUnmute (1, 2) :: [.wake 0 false])) 0 =
      some false :=
  C1_unmute_replacement_cancels_old [.scheduleUnmute (1, 2)] [.wake 0 false] (1, 2) 0
    (by decide) (by decide)

/-- C2: the map-coherence claim fails on the code.  `_task`'s `finally`
clause runs `scheduled_unmutes.pop(key, None)` unconditionally, so when
an old task is cancelled because it was replaced, its cleanup removes
the map entry of the NEWER task armed for the same key.  Concretely:
after scheduling, replacing, and letting the old task run its
cancellation path, the newer task 1 is still armed (sleeping) but the
map no longer has an entry for the key — even though the map held
task 1 right after the replacement. -/
theorem C2_replacement_cleanup_removes_new_entry :
    lookupSched (schedExec [.scheduleUnmute (1, 2), .scheduleUnmute (1, 2)]).sched (1, 2) =
      some 1 ∧
    statusOf (schedExec [.scheduleUnmute (1, 2), .scheduleUnmute (1, 2), .wake 0 false]) 1 =
      some .sleeping ∧
    lookupSched
      (schedExec [.scheduleUnmute (1, 2), .scheduleUnmute (1, 2), .wake 0 false]).sched
      (1, 2) = none := by
  decide

/-- C3: duration parsing fails exactly when the input is empty, no
(amount, unit) pair is matched, or the matched pairs sum to zero; on
success the total is positive, so the caller never proceeds with a zero
delay; and the three spec examples all fail. -/
theorem C3_duration_error_conditions :
    (∀ s : String, isErr (parse_duration_to_seconds s) = true ↔
        (s = "" ∨ durPairs s = [] ∨ durTotal s = 0)) ∧
    (∀ s n, parse_duration_to_seconds s = .ok n → 0 < n) ∧
    isErr (parse_duration_to_seconds "") = true ∧
    isErr (parse_duration_to_seconds "abc") = true ∧
    isErr (parse_duration_to_seconds "0s") = true := by
  refine ⟨?_, ?_, by decide, by decide, by decide⟩
  · intro s
    rw [isErr_parse_iff]
    constructor
    · intro h; exact Or.inr (Or.inr h)
    · rintro (h | h | h)
      · subst h; decide
      · simp [durTotal, h]
      · exact h
  · intro s n h
    rw [parse_eq] at h
    by_cases h1 : (durPreprocess s).isEmpty <;> simp [h1] at h
    by_cases h2 : durTotal s = 0 <;> simp [h2] at h
    omega

/-- C3 witness: `C3_duration_error_conditions` applied to the parse of
"90s", which succeeds with value 90. -/
theorem C3_duration_error_conditions_witness : 0 < 90 :=
  C3_duration_error_conditions.2.1 "90s" 90 (by decide)

/-- C4: a successful parse returns exactly the sum of amount ×
unit-seconds over the matched pairs, that sum is invariant under
permutation of the pairs, and "1h30m" and "30m1h" both parse to
5400 seconds. -/
theorem C4_duration_total_order_independent :
    (∀ s n, parse_duration_to_seconds s = .ok n → n = durTotal s) ∧
    (∀ s t : String, (durPairs s).Perm (durPairs t) → durTotal s = durTotal t) ∧
    parse_duration_to_seconds "1h30m" = .ok 5400 ∧
    parse_duration_to_seconds "30m1h" = .ok 5400 := by
  refine ⟨?_, ?_, by decide, by decide⟩
  · intro s n h
    rw [parse_eq] at h
    by_cases h1 : (durPreprocess s).isEmpty <;> simp [h1] at h
    by_cases h2 : durTotal s = 0 <;> simp [h2] at h
    omega
  · intro s t hperm
    unfold durTotal
    exact (hperm.map _).sum_eq

/-- C4 witness: `C4_duration_total_order_independent` applied to
"1h30m" and to the permutation of its pairs with those of "30m1h". -/
theorem C4_duration_total_order_independent_witness :
    5400 = durTotal "1h30m" ∧ durTotal "1h30m" = durTotal "30m1h" :=
  ⟨C4_duration_total_order_independent.1 "1h30m" 5400 (by decide),
   C4_duration_total_order_independent.2.1 "1h30m" "30m1h" (by decide)⟩

/-- C5: with the configuration `commands.cooldown(2, 5, ...)` used by
the `pass`, `8ball`, `flip` and `roll` commands, three invocations by
one identity within 5 seconds of the first yield Allowed, Allowed, then
a rejection with a positive remaining wait, and an invocation at or
after the window's end is Allowed again. -/
theorem C5_cooldown_two_per_five :
    ∀ t1 t2 t3 t4 : Nat,
      t1 ≤ t2 → t2 ≤ t3 → t3 < t1 + pass_cooldown.per → t1 + pass_cooldown.per ≤ t4 →
      ∃ st1 st2 st3 r,
        cooldown_check pass_cooldown none t1 = (.allowed, st1) ∧
        cooldown_check pass_cooldown st1 t2 = (.allowed, st2) ∧
        cooldown_check pass_cooldown st2 t3 = (.retryAfter r, st3) ∧ 0 < r ∧
        (cooldown_check pass_cooldown st3 t4).1 = .allowed := by
  intro t1 t2 t3 t4 h12 h23 h3 h4
  simp only [pass_cooldown] at h3 h4
  refine ⟨some ⟨t1, 1⟩, some ⟨t1, 2⟩, some ⟨t1, 2⟩, t1 + 5 - t3, rfl, ?_, ?_, ?_, ?_⟩
  · show (if t1 + 5 ≤ t2 then _ else if 1 < 2 then _ else _) = _
    rw [if_neg (by omega), if_pos (by omega)]
  · show (if t1 + 5 ≤ t3 then _ else if 2 < 2 then _ else _) = _
    rw [if_neg (by omega), if_neg (by omega)]
    rfl
  · omega
  · show (cooldown_check ⟨2, 5⟩ (some ⟨t1, 2⟩) t4).1 = _
    show (if t1 + 5 ≤ t4 then _
          else if 2 < 2 then _ else _ : CooldownResult × Option CooldownWindow).1 = _
    rw [if_pos (by omega)]

/-- C5 witness: `C5_cooldown_two_per_five` at times 0, 1, 2, 5. -/
theorem C5_cooldown_two_per_five_witness :
    ∃ st1 st2 st3 r,
      cooldown_check pass_cooldown none 0 = (.allowed, st1) ∧
      cooldown_check pass_cooldown st1 1 = (.allowed, st2) ∧
      cooldown_check pass_cooldown st2 2 = (.retryAfter r, st3) ∧ 0 < r ∧
      (cooldown_check pass_cooldown st3 5).1 = .allowed :=
  C5_cooldown_two_per_five 0 1 2 5 (by decide) (by decide) (by decide) (by decide)

/-- C6: the generator clamps the requested length into [4, 64] itself,
so even the unclamped pass-through caller `password` (bot.py 299-300)
always gets a password of in-range length, for every requested length
and every random draw; moreover every character comes from the
alphabet. -/
theorem C6_password_length_clamped :
    ∀ (len : Int) (pick : Nat → Nat),
      4 ≤ (password_command len pick).length ∧
      (password_command len pick).length ≤ 64 ∧
      ∀ c ∈ (password_command len pick).data, c ∈ PASSWORD_ALPHABET := by
  intro len pick
  have hlen : (password_command len pick).length = clampPassLength len := by
    simp [password_command, gen_pass, String.length]
  have hb : 4 ≤ clampPassLength len ∧ clampPassLength len ≤ 64 := by
    unfold clampPassLength
    omega
  refine ⟨by omega, by omega, ?_⟩
  intro c hc
  simp only [password_command, gen_pass] at hc
  rcases List.mem_map.mp hc with ⟨i, _, hci⟩
  rw [← hci]
  exact getD_mod_mem _ _ _ (by decide)

/-- C7: `choose` splits on "|" into trimmed non-empty parts, fails
exactly when fewer than two parts remain, and otherwise always returns
one of the parts; `choose "tacos | sushi"` returns "tacos" or "sushi"
for every random draw, and `choose "onlyone"` always fails. -/
theorem C7_choose_one_of_parts :
    (∀ options n r, choose options n = .ok r → r ∈ splitStripParts options) ∧
    (∀ options n, isErr (choose options n) = true ↔ (splitStripParts options).length < 2) ∧
    (∀ n, choose "tacos | sushi" n = .ok "tacos" ∨ choose "tacos | sushi" n = .ok "sushi") ∧
    (∀ n, isErr (choose "onlyone" n) = true) := by
  refine ⟨?_, ?_, ?_, ?_⟩
  · intro options n r h
    unfold choose at h
    by_cases hl : (splitStripParts options).length < 2
    · simp [hl] at h
    · simp only [hl, if_false] at h
      have hlen : 0 < (splitStripParts options).length := by omega
      rw [← Except.ok.inj h]
      exact getD_mod_mem _ _ _ hlen
  · intro options n
    unfold choose
    by_cases hl : (splitStripParts options).length < 2 <;> simp [hl, isErr]
  · intro n
    have hp : splitStripParts "tacos | sushi" = ["tacos", "sushi"] := by decide
    rcases Nat.mod_two_eq_zero_or_one n with h | h <;> simp [choose, hp, h]
  · intro n
    have hp : (splitStripParts "onlyone").length < 2 := by decide
    simp [choose, hp, isErr]

/-- C7 witness: `C7_choose_one_of_parts` applied to the concrete pick
`choose "tacos | sushi" 0 = .ok "tacos"`. -/
theorem C7_choose_one_of_parts_witness : "tacos" ∈ splitStripParts "tacos | sushi" :=
  C7_choose_one_of_parts.1 "tacos | sushi" 0 "tacos" (by decide)

/-- C8 (counterexample): the claim says an input containing at least
one valid (integer, unit) pair parses successfully, but "xx0sxx"
matches the valid pair (0, s) and still fails, because the matched
pairs sum to zero. -/
theorem C8_counterexample_zero_pair :
    durPairs "xx0sxx" = [(0, 's')] ∧
    isErr (parse_duration_to_seconds "xx0sxx") = true := by
  decide

/-- C8 (amended): unmatched characters are silently ignored — the
result depends only on the matched pairs.  Whenever the matched pairs
sum to a nonzero total, the input parses successfully to exactly that
sum, even when the pairs are surrounded by unrecognized text
("abc1h30mxyz" parses to 5400, the same pairs as "1h30m"); an input
whose matched pairs sum to zero still fails. -/
theorem C8_unmatched_chars_ignored :
    (∀ s : String, durTotal s ≠ 0 → parse_duration_to_seconds s = .ok (durTotal s)) ∧
    parse_duration_to_seconds "abc1h30mxyz" = .ok 5400 ∧
    durPairs "abc1h30mxyz" = durPairs "1h30m" := by
  refine ⟨?_, by decide, by decide⟩
  intro s h
  rw [parse_eq]
  have h1 : (durPreprocess s).isEmpty = false := by
    rcases hc : (durPreprocess s).isEmpty with _ | _
    · rfl
    · exact absurd (by simp [durTotal, durPreprocess_empty_pairs hc]) h
  simp [h1, h]

/-- C8 witness: `C8_unmatched_chars_ignored` applied to
"abc1h30mxyz", whose pairs sum to 5400. -/
theorem C8_unmatched_chars_ignored_witness :
    parse_duration_to_seconds "abc1h30mxyz" = .ok (durTotal "abc1h30mxyz") :=
  C8_unmatched_chars_ignored.1 "abc1h30mxyz" (by decide)

/-- C9: in any reachable state, cancelling a key with no pending entry
(never scheduled, or already fired and hence popped) is an exact no-op
on the whole state; cancelling a key whose registered task is still
sleeping removes the entry from the map and the task never fires, no
matter what events follow. -/
theorem C9_cancel_noop_or_cancels :
    ∀ (es : List SchedEvent) (k : Nat × Nat),
      (lookupSched (schedExec es).sched k = none →
        schedStep (schedExec es) (.unmuteCmd k) = schedExec es) ∧
      (∀ tid, lookupSched (schedExec es).sched k = some tid →
        statusOf (schedExec es) tid = some .sleeping →
        lookupSched (schedExec (es ++ [.unmuteCmd k])).sched k = none ∧
        ∀ es2, firedOf (schedExec (es ++ .unmuteCmd k :: es2)) tid = some false) := by
  intro es k
  constructor
  · exact unmuteCmd_noop (schedExec es) k
  · intro tid hl hst
    obtain ⟨t, ht, hts⟩ := statusOf_some_elim _ _ _ hst
    have hfired : t.fired = false := sleeping_not_fired es tid t ht hts
    obtain ⟨hnone, t', ht', hts', htf'⟩ :=
      unmuteCmd_cancels (schedExec es) k tid t hl ht hts
    constructor
    · rw [show schedExec (es ++ [.unmuteCmd k]) =
          schedStep (schedExec es) (.unmuteCmd k) from schedExec_append_cons es _ []]
      exact hnone
    · intro es2
      obtain ⟨u, hu, _, huf⟩ :=
        tainted_foldl es2 (schedStep (schedExec es) (.unmuteCmd k)) tid
          ⟨t', ht', by rw [hts']; rfl, by rw [htf']; exact hfired⟩
      rw [schedExec_append_cons]
      unfold firedOf
      rw [hu, Option.map_some', huf]

/-- C9 witness: `C9_cancel_noop_or_cancels` at concrete traces — the
no-op part after a fired (hence already-popped) unmute, and the
pop-and-cancel part on a pending unmute. -/
theorem C9_cancel_noop_or_cancels_witness :
    (schedStep (schedExec [.scheduleUnmute (1, 2), .wake 0 false]) (.unmuteCmd (1, 2)) =
      schedExec [.scheduleUnmute (1, 2), .wake 0 false]) ∧
    lookupSched (schedExec ([.scheduleUnmute (1, 2)] ++ [.unmuteCmd (1, 2)])).sched (1, 2) =
      none ∧
    firedOf (schedExec ([.scheduleUnmute (1, 2)] ++ .unmuteCmd (1, 2) :: [.wake 0 false])) 0 =
      some false :=
  ⟨(C9_cancel_noop_or_cancels [.scheduleUnmute (1, 2), .wake 0 false] (1, 2)).1 (by decide),
   ((C9_cancel_noop_or_cancels [.scheduleUnmute (1, 2)] (1, 2)).2 0
     (by decide) (by decide)).1,
   ((C9_cancel_noop_or_cancels [.scheduleUnmute (1, 2)] (1, 2)).2 0
     (by decide) (by decide)).2 [.wake 0 false]⟩

/-- C10: `poll` rejects with the usage reply exactly when the option
count is outside [2, 10]; when it is admitted, every emoji index used
is within the bounds of the 10-element `NUM_EMOJIS` list, and every
rendered line's emoji lookup succeeds. -/
theorem C10_poll_emoji_in_bounds :
    (∀ options, isErr (poll options) = true ↔
        ¬(2 ≤ (pollOpts options).length ∧ (pollOpts options).length ≤ 10)) ∧
    (∀ options, isErr (poll options) = false →
        ∀ i ∈ pollIndices options, i < NUM_EMOJIS.length) ∧
    (∀ options lines, poll options = .ok lines → ∀ p ∈ lines, p.1.isSome = true) := by
  have hadm : ∀ options, isErr (poll options) = true ↔
      ¬(2 ≤ (pollOpts options).length ∧ (pollOpts options).length ≤ 10) := by
    intro options
    unfold poll
    by_cases hc : 2 ≤ (pollOpts options).length ∧ (pollOpts options).length ≤ 10 <;>
      simp [hc, isErr]
  refine ⟨hadm, ?_, ?_⟩
  · intro options h i hi
    have hc : 2 ≤ (pollOpts options).length ∧ (pollOpts options).length ≤ 10 := by
      by_contra hc
      rw [← hadm options] at hc
      rw [hc] at h
      exact Bool.noConfusion h
    have h1 : i < (pollOpts options).length := List.mem_range.mp hi
    have h2 : NUM_EMOJIS.length = 10 := by decide
    omega
  · intro options lines h p hp
    unfold poll at h
    by_cases hc : 2 ≤ (pollOpts options).length ∧ (pollOpts options).length ≤ 10
    · simp only [hc, if_true] at h
      rw [← Except.ok.inj h] at hp
      rcases List.mem_map.mp hp with ⟨q, hq, hpq⟩
      have hqlt : q.1 < (pollOpts options).length :=
        (List.getElem?_eq_some.mp (List.mem_enum_iff_getElem?.mp hq)).1
      have h10 : q.1 < NUM_EMOJIS.length := by
        have h2 : NUM_EMOJIS.length = 10 := by decide
        omega
      rw [← hpq]
      show (NUM_EMOJIS.get? q.1).isSome = true
      rw [List.get?_eq_getElem?, List.getElem?_eq_getElem h10]
      rfl
    · simp [hc] at h

/-- C10 witness: `C10_poll_emoji_in_bounds` on the admitted option text
"a | b | c": indices 0 and 2 are within the emoji list. -/
theorem C10_poll_emoji_in_bounds_witness :
    0 < NUM_EMOJIS.length ∧ 2 < NUM_EMOJIS.length :=
  ⟨C10_poll_emoji_in_bounds.2.1 "a | b | c" (by decide) 0 (by decide),
   C10_poll_emoji_in_bounds.2.1 "a | b | c" (by decide) 2 (by decide)⟩

end Bot
